import Mathlib

/-!
Verification of the text-extraction and candidate-selection core of
`get_random_wiki.py`.  Text is modelled as `List Char` (Python `len` on
`str` counts Unicode code points, as does `List.length` on `List Char`).
Regular-expression substitutions are modelled by character-level scanners
that reproduce the leftmost, non-overlapping, greedy matching that the
concrete patterns exhibit (each pattern here is deterministic: every
greedy sub-expression is followed by a character it can never match, so
backtracking never changes the outcome).
-/

namespace GetWiki

/-- Whitespace class of Python `\s` (and `str.strip`) for `str` patterns:
ASCII whitespace, the C1 separators, and the Unicode space characters. -/
def isSpace (c : Char) : Bool :=
  [' ', '\t', '\n', '\r', '\x0b', '\x0c', '\x1c', '\x1d', '\x1e', '\x1f',
   '\x85', '\xa0', ' ', ' ', ' ', ' ', ' ', ' ',
   ' ', ' ', ' ', ' ', ' ', ' ', ' ',
   ' ', ' ', ' ', '　'].contains c

/-- Python `str.strip()`: drop leading and trailing whitespace. -/
def pyStrip (l : List Char) : List Char :=
  ((l.dropWhile isSpace).reverse.dropWhile isSpace).reverse

/-- `REF_MARK_RE = re.compile(r"\[\d+\]")`: length of the match starting at
the head of the list, if any.  (`\d` is modelled on its ASCII part; the
inputs of interest contain only ASCII digits.) -/
def refMatchLen (l : List Char) : Option Nat :=
  match l with
  | [] => none
  | c :: rest =>
    if c = '[' then
      let ds := rest.takeWhile Char.isDigit
      if ds.isEmpty then none
      else
        match rest.drop ds.length with
        | ']' :: _ => some (ds.length + 2)
        | _ => none
    else none

/-- `EDIT_MARK_RE = re.compile(r"\[\s*編集\s*\]")`: match length at the head. -/
def editMatchLen (l : List Char) : Option Nat :=
  match l with
  | [] => none
  | c :: rest =>
    if c = '[' then
      let ws1 := rest.takeWhile isSpace
      match rest.drop ws1.length with
      | '編' :: '集' :: rest2 =>
        let ws2 := rest2.takeWhile isSpace
        match rest2.drop ws2.length with
        | ']' :: _ => some (ws1.length + ws2.length + 4)
        | _ => none
      | _ => none
    else none

/-- Generic `re.sub(pattern, repl, text)` scanner: at each position try the
matcher; on a match emit `repl` and resume after the matched region, else
keep the character.  `fuel` bounds the recursion; `fuel = l.length` always
suffices because every step consumes at least one character. -/
def subF (m : List Char → Option Nat) (repl : List Char) : Nat → List Char → List Char
  | 0, l => l
  | _ + 1, [] => []
  | f + 1, c :: rest =>
    match m (c :: rest) with
    | some n => repl ++ subF m repl f (rest.drop (n - 1))
    | none => c :: subF m repl f rest

/-- `pattern.sub(repl, l)` for an unanchored pattern described by `m`. -/
def pySub (m : List Char → Option Nat) (repl : List Char) (l : List Char) : List Char :=
  subF m repl l.length l

/-- Whether the character that ends a matched bullet region is a newline:
decides if the position right after the match is again a line start. -/
def bulletFlag (ws2 : List Char) : Bool :=
  match ws2.getLast? with
  | some c => c == '\n'
  | none => false

/-- Anchored pattern `(?m)^\s*\*\s*` tried at a line start: on success,
return the line-start flag for the resume position and the remainder. -/
def bulletMatch (l : List Char) : Option (Bool × List Char) :=
  match l.drop (l.takeWhile isSpace).length with
  | '*' :: rest2 =>
    some (bulletFlag (rest2.takeWhile isSpace), rest2.drop (rest2.takeWhile isSpace).length)
  | _ => none

/-- `re.sub(r"(?m)^\s*\*\s*", "", text)`: scan with a line-start flag; the
pattern is only tried at line starts (position 0 or right after `'\n'`). -/
def subBulletF : Nat → Bool → List Char → List Char
  | 0, _, l => l
  | _ + 1, _, [] => []
  | f + 1, true, c :: rest =>
    match bulletMatch (c :: rest) with
    | some (b2, rem) => subBulletF f b2 rem
    | none => c :: subBulletF f (c == '\n') rest
  | f + 1, false, c :: rest => c :: subBulletF f (c == '\n') rest

/-- The whole bullet substitution (position 0 is a line start). -/
def subBullet (l : List Char) : List Char :=
  subBulletF l.length true l

/-- `MULTI_WS_RE.sub(" ", text)`: collapse each maximal whitespace run
into a single space. -/
def collapseWs : List Char → List Char
  | [] => []
  | [c] => if isSpace c then [' '] else [c]
  | c :: d :: rest =>
    if isSpace c then
      if isSpace d then collapseWs (d :: rest)
      else ' ' :: collapseWs (d :: rest)
    else c :: collapseWs (d :: rest)

/-- `clean_text` from `get_random_wiki.py`: strip reference markers, strip
edit markers, strip line-leading bullets, collapse whitespace, trim. -/
def clean_text (text : List Char) : List Char :=
  let t1 := pySub refMatchLen [] text
  let t2 := pySub editMatchLen [] t1
  let t3 := subBullet t2
  let t4 := collapseWs t3
  pyStrip t4

/-- Pattern `<br\s*/?>` of `strip_html_text`: match length at the head. -/
def brMatchLen (l : List Char) : Option Nat :=
  match l with
  | '<' :: 'b' :: 'r' :: rest =>
    let ws := rest.takeWhile isSpace
    match rest.drop ws.length with
    | '/' :: '>' :: _ => some (ws.length + 5)
    | '>' :: _ => some (ws.length + 4)
    | _ => none
  | _ => none

/-- Pattern `</(p|li|h\d|div)>` of `strip_html_text`: match length at the head. -/
def closeMatchLen (l : List Char) : Option Nat :=
  match l with
  | '<' :: '/' :: 'p' :: '>' :: _ => some 4
  | '<' :: '/' :: 'l' :: 'i' :: '>' :: _ => some 5
  | '<' :: '/' :: 'h' :: c :: '>' :: _ => if c.isDigit then some 5 else none
  | '<' :: '/' :: 'd' :: 'i' :: 'v' :: '>' :: _ => some 6
  | _ => none

/-- Pattern `HTML_TAG_RE = re.compile(r"<[^>]+>")`: match length at the head. -/
def tagMatchLen (l : List Char) : Option Nat :=
  match l with
  | [] => none
  | c :: rest =>
    if c = '<' then
      let body := rest.takeWhile (fun d => d != '>')
      if body.isEmpty then none
      else
        match rest.drop body.length with
        | '>' :: _ => some (body.length + 2)
        | _ => none
    else none

/-- Modelled from the spec: the call `html.unescape` (Python standard
library, external to this repository) decodes HTML entities; we model the
decoding of the five predefined entities, which is all the development
relies on (no claim depends on the entity table). -/
def html_unescape : List Char → List Char
  | '&' :: 'a' :: 'm' :: 'p' :: ';' :: rest => '&' :: html_unescape rest
  | '&' :: 'l' :: 't' :: ';' :: rest => '<' :: html_unescape rest
  | '&' :: 'g' :: 't' :: ';' :: rest => '>' :: html_unescape rest
  | '&' :: 'q' :: 'u' :: 'o' :: 't' :: ';' :: rest => '"' :: html_unescape rest
  | '&' :: '#' :: '3' :: '9' :: ';' :: rest => '\'' :: html_unescape rest
  | c :: rest => c :: html_unescape rest
  | [] => []

/-- `strip_html_text` from `get_random_wiki.py`. -/
def strip_html_text (text : List Char) : List Char :=
  let t1 := pySub brMatchLen ['\n'] text
  let t2 := pySub closeMatchLen ['\n'] t1
  let t3 := pySub tagMatchLen [' '] t2
  clean_text (html_unescape t3)

/-- Terminal punctuation of `re.split(r"(?<=[。！？!?])", text)`. -/
def isTerminal (c : Char) : Bool :=
  c == '。' || c == '！' || c == '？' || c == '!' || c == '?'

/-- Chunks produced by `re.split(r"(?<=[。！？!?])", text)`: the text is cut
right after every terminal character (the terminal stays with the chunk
before the cut); a trailing empty chunk appears when the text ends with a
terminal character, exactly as `re.split` produces it. -/
def splitChunks : List Char → List (List Char)
  | [] => [[]]
  | c :: rest =>
    if isTerminal c then [c] :: splitChunks rest
    else
      match splitChunks rest with
      | k :: more => (c :: k) :: more
      | [] => [[c]]

/-- `split_sentences` from `get_random_wiki.py`. -/
def split_sentences (text : List Char) : List (List Char) :=
  ((splitChunks text).map pyStrip).filter (fun s => !s.isEmpty)

/-- `is_valid_text` from `get_random_wiki.py`. -/
def is_valid_text (text : List Char) : Bool :=
  decide (30 ≤ text.length)

/-- `choose_valid_sentence` from `get_random_wiki.py`: first sentence that
is valid, else the stripped whole text when that is valid, else nothing. -/
def choose_valid_sentence (text : List Char) : Option (List Char) :=
  match (split_sentences text).find? is_valid_text with
  | some sentence => some sentence
  | none =>
    let fallback := pyStrip text
    if is_valid_text fallback then some fallback else none

/-- One random article as served by the external Wikipedia API for one
call of `fetch_random_summary`: the raw title (`""` models an absent or
empty page set), the raw HTML of the section whose heading is 概要 when
such a section exists, and the raw lead extract (`""` when absent). -/
structure Article where
  titleRaw : List Char
  overviewHtml : Option (List Char)
  leadRaw : List Char
deriving DecidableEq

/-- `fetch_random_page_title`: the stripped title, or `None` when empty. -/
def fetch_random_page_title (a : Article) : Option (List Char) :=
  let title := pyStrip a.titleRaw
  if title.isEmpty then none else some title

/-- `fetch_lead_extract_all`: the cleaned lead extract. -/
def fetch_lead_extract_all (a : Article) : List Char :=
  clean_text a.leadRaw

/-- `fetch_overview_section_text`: `""` when no 概要 section exists, else
the section HTML passed through `strip_html_text`. -/
def fetch_overview_section_text (a : Article) : List Char :=
  match a.overviewHtml with
  | none => []
  | some h => strip_html_text h

/-- `fetch_random_summary` from `get_random_wiki.py`: the candidate
selector, in priority order overview section, lead, extracted sentence;
the emptiness tests model Python truthiness of the strings involved. -/
def fetch_random_summary (a : Article) : Option (List Char × List Char) :=
  match fetch_random_page_title a with
  | none => none
  | some title =>
    let overview_text := fetch_overview_section_text a
    if !overview_text.isEmpty && is_valid_text overview_text then
      some (title, overview_text)
    else
      let lead_text := fetch_lead_extract_all a
      if !lead_text.isEmpty && is_valid_text lead_text then
        some (title, lead_text)
      else
        let picked := if !lead_text.isEmpty then choose_valid_sentence lead_text else none
        match picked with
        | some p => if !p.isEmpty then some (title, p) else none
        | none => none

/-- Outcome of one call of `fetch_random_summary` inside the retry loop of
`main`: either the underlying HTTP request raises `requests.RequestException`,
or the API serves article data `a` and the call returns
`fetch_random_summary a`. -/
inductive FetchOutcome where
  | raise
  | ret (a : Article)
deriving DecidableEq

/-- Result of the inner `for _ in range(args.max_tries)` loop of `main`:
the candidate found (if any), the index of the next unconsumed fetch
outcome (so `next - start` counts the tries used), and the number of
API-failure messages printed. -/
structure TryResult where
  found : Option (List Char × List Char)
  next : Nat
  errors : Nat
deriving DecidableEq

/-- The inner retry loop of `main`: up to `tries` attempts, stopping at
the first candidate; an exception is reported and consumes one try. -/
def tryLoop (env : Nat → FetchOutcome) : Nat → Nat → TryResult
  | idx, 0 => ⟨none, idx, 0⟩
  | idx, tries + 1 =>
    match env idx with
    | .raise =>
      let r := tryLoop env (idx + 1) tries
      ⟨r.found, r.next, r.errors + 1⟩
    | .ret a =>
      match fetch_random_summary a with
      | some rcd => ⟨some rcd, idx + 1, 0⟩
      | none => tryLoop env (idx + 1) tries

/-- The outer `for _ in range(args.count)` loop of `main`: returns the
saved records in order together with the next unconsumed fetch index. -/
def recordLoop (env : Nat → FetchOutcome) (maxTries : Nat) :
    Nat → Nat → List (List Char × List Char) × Nat
  | 0, idx => ([], idx)
  | count + 1, idx =>
    let r := tryLoop env idx maxTries
    let rest := recordLoop env maxTries count r.next
    match r.found with
    | some rcd => (rcd :: rest.1, rest.2)
    | none => rest

/-- Observable result of one run of `main`: the exit code, the records
persisted (in order), whether the HTTP session was created, and how many
fetch attempts were made. -/
structure RunResult where
  exitCode : Int
  rows : List (List Char × List Char)
  sessionCreated : Bool
  calls : Nat
deriving DecidableEq

/-- `main` from `get_random_wiki.py`, with the command-line integers as
inputs and the network modelled by the stream `env` of fetch outcomes. -/
def main (count max_tries : Int) (env : Nat → FetchOutcome) : RunResult :=
  if count ≤ 0 then ⟨1, [], false, 0⟩
  else if max_tries ≤ 0 then ⟨1, [], false, 0⟩
  else
    let r := recordLoop env max_tries.toNat count.toNat 0
    ⟨if r.1.isEmpty then 1 else 0, r.1, true, r.2⟩

/-- A CSV row, as the list of its fields. -/
abbrev CsvRow := List (List Char)

/-- The header row written by `append_to_csv`. -/
def headerRow : CsvRow := [("title").data, ("text").data]

/-- `append_to_csv` from `get_random_wiki.py`: the CSV file is modelled by
its list of rows, `none` meaning the path does not exist.  The header is
written only when the file is absent or empty; the record row is always
appended. -/
def append_to_csv (file : Option (List CsvRow)) (title text : List Char) : List CsvRow :=
  let need_header :=
    match file with
    | none => true
    | some rows => rows.isEmpty
  (file.getD []) ++ (if need_header then [headerRow] else []) ++ [[title, text]]

/-- Iterated `append_to_csv`, one call per record, as `main` performs. -/
def appendAll : Option (List CsvRow) → List (List Char × List Char) → Option (List CsvRow)
  | file, [] => file
  | file, r :: rs => appendAll (some (append_to_csv file r.1 r.2)) rs

/-- No two adjacent whitespace characters. -/
def NoRun (l : List Char) : Prop :=
  l.Chain' (fun a b => ¬(isSpace a = true ∧ isSpace b = true))

/-- Whether a reference marker `[<digits>]` occurs anywhere in the text. -/
def hasRefMark : List Char → Bool
  | [] => false
  | c :: rest => (refMatchLen (c :: rest)).isSome || hasRefMark rest

/-- A text assembled from an initial block followed by alternating
reference markers `[dᵢ]` and blocks `bᵢ`: the shape
`b₀ [d₁] b₁ [d₂] b₂ …`. -/
def glueRef (b0 : List Char) (ps : List (List Char × List Char)) : List Char :=
  b0 ++ (ps.map (fun p => '[' :: (p.1 ++ (']' :: p.2)))).join

/-- Whether fetch attempt `i` cannot produce a candidate: the request
raises, or the selector rejects the served article. -/
def failsAt (env : Nat → FetchOutcome) (i : Nat) : Bool :=
  match env i with
  | .raise => true
  | .ret a => (fetch_random_summary a).isNone

/-! ### Generic lemmas about the substitution engine -/

theorem subF_fuel_irrel (m : List Char → Option Nat) (repl : List Char) :
    ∀ f₁ f₂ l, l.length ≤ f₁ → l.length ≤ f₂ → subF m repl f₁ l = subF m repl f₂ l := by
  intro f₁
  induction f₁ with
  | zero =>
    intro f₂ l h₁ _
    have hl : l = [] := List.eq_nil_of_length_eq_zero (Nat.le_zero.mp h₁)
    subst hl
    cases f₂ <;> rfl
  | succ f ih =>
    intro f₂ l h₁ h₂
    cases l with
    | nil => cases f₂ <;> rfl
    | cons c rest =>
      cases f₂ with
      | zero => exact absurd h₂ (by simp)
      | succ g =>
        show (match m (c :: rest) with
          | some n => repl ++ subF m repl f (rest.drop (n - 1))
          | none => c :: subF m repl f rest) =
          (match m (c :: rest) with
          | some n => repl ++ subF m repl g (rest.drop (n - 1))
          | none => c :: subF m repl g rest)
        have hr : rest.length ≤ f := by
          simpa using Nat.lt_succ_iff.mp (Nat.lt_of_lt_of_le (by simp) h₁)
        have hg : rest.length ≤ g := by
          simpa using Nat.lt_succ_iff.mp (Nat.lt_of_lt_of_le (by simp) h₂)
        cases m (c :: rest) with
        | some n =>
          have hd : (rest.drop (n - 1)).length ≤ rest.length := by
            simp [List.length_drop]
          exact congrArg (repl ++ ·)
            (ih g _ (Nat.le_trans hd hr) (Nat.le_trans hd hg))
        | none => exact congrArg (c :: ·) (ih g rest hr hg)

theorem pySub_cons_some (m : List Char → Option Nat) (repl : List Char)
    (c : Char) (rest : List Char) (n : Nat) (h : m (c :: rest) = some n) :
    pySub m repl (c :: rest) = repl ++ pySub m repl (rest.drop (n - 1)) := by
  show subF m repl (rest.length + 1) (c :: rest) = _
  rw [show subF m repl (rest.length + 1) (c :: rest) =
    (match m (c :: rest) with
      | some n => repl ++ subF m repl rest.length (rest.drop (n - 1))
      | none => c :: subF m repl rest.length rest) from rfl, h]
  exact congrArg (repl ++ ·)
    (subF_fuel_irrel m repl _ _ _ (by simp [List.length_drop]) (Nat.le_refl _))

theorem pySub_cons_none (m : List Char → Option Nat) (repl : List Char)
    (c : Char) (rest : List Char) (h : m (c :: rest) = none) :
    pySub m repl (c :: rest) = c :: pySub m repl rest := by
  show subF m repl (rest.length + 1) (c :: rest) = _
  rw [show subF m repl (rest.length + 1) (c :: rest) =
    (match m (c :: rest) with
      | some n => repl ++ subF m repl rest.length (rest.drop (n - 1))
      | none => c :: subF m repl rest.length rest) from rfl, h]
  rfl

theorem refMatchLen_none_of_head (c : Char) (rest : List Char) (h : c ≠ '[') :
    refMatchLen (c :: rest) = none := by
  simp [refMatchLen, h]

theorem not_mem_cons_parts {c x : Char} {rest : List Char} (h : x ∉ (c :: rest)) :
    c ≠ x ∧ x ∉ rest :=
  ⟨fun hc => h (hc ▸ List.mem_cons_self c rest), fun hm => h (List.mem_cons_of_mem c hm)⟩

theorem editMatchLen_none_of_head (c : Char) (rest : List Char) (h : c ≠ '[') :
    editMatchLen (c :: rest) = none := by
  simp [editMatchLen, h]

theorem pySub_ref_noop (repl : List Char) :
    ∀ l : List Char, '[' ∉ l → pySub refMatchLen repl l = l := by
  intro l
  induction l with
  | nil => intro _; rfl
  | cons c rest ih =>
    intro h
    rw [pySub_cons_none _ _ _ _ (refMatchLen_none_of_head c rest (not_mem_cons_parts h).1)]
    rw [ih (not_mem_cons_parts h).2]

theorem pySub_edit_noop (repl : List Char) :
    ∀ l : List Char, '[' ∉ l → pySub editMatchLen repl l = l := by
  intro l
  induction l with
  | nil => intro _; rfl
  | cons c rest ih =>
    intro h
    rw [pySub_cons_none _ _ _ _ (editMatchLen_none_of_head c rest (not_mem_cons_parts h).1)]
    rw [ih (not_mem_cons_parts h).2]

theorem bulletMatch_none_of_no_star (l : List Char) (h : '*' ∉ l) :
    bulletMatch l = none := by
  unfold bulletMatch
  split
  · next b2 rest2 heq =>
    exfalso
    apply h
    exact List.mem_of_mem_drop (heq ▸ List.mem_cons_self '*' rest2)
  · rfl

theorem subBulletF_noop_of_no_star :
    ∀ (f : Nat) (b : Bool) (l : List Char), '*' ∉ l → subBulletF f b l = l := by
  intro f
  induction f with
  | zero => intro b l _; rfl
  | succ f ih =>
    intro b l h
    cases l with
    | nil => cases b <;> rfl
    | cons c rest =>
      have hc : '*' ∉ (c :: rest) := h
      have hrest : '*' ∉ rest := fun hm => h (List.mem_cons_of_mem c hm)
      cases b with
      | true =>
        show (match bulletMatch (c :: rest) with
          | some (b2, rem) => subBulletF f b2 rem
          | none => c :: subBulletF f (c == '\n') rest) = c :: rest
        rw [bulletMatch_none_of_no_star _ hc]
        exact congrArg (c :: ·) (ih _ rest hrest)
      | false =>
        exact congrArg (c :: ·) (ih _ rest hrest)

theorem subBulletF_noop_of_false :
    ∀ (f : Nat) (l : List Char), '\n' ∉ l → subBulletF f false l = l := by
  intro f
  induction f with
  | zero => intro l _; rfl
  | succ f ih =>
    intro l h
    cases l with
    | nil => rfl
    | cons c rest =>
      have hc : (c == '\n') = false := by
        simp only [beq_eq_false_iff_ne, ne_eq]
        intro hcn; exact h (hcn ▸ List.mem_cons_self c rest)
      show c :: subBulletF f (c == '\n') rest = c :: rest
      rw [hc, ih rest (fun hm => h (List.mem_cons_of_mem c hm))]

/-! ### Lemmas about whitespace collapapse and stripping -/

theorem collapseWs_mem : ∀ l : List Char, ∀ c ∈ collapseWs l, c = ' ' ∨ c ∈ l := by
  intro l
  induction l using collapseWs.induct with
  | case1 => intro c h; exact absurd h (by simp [collapseWs])
  | case2 c hs =>
    intro x hx
    rw [collapseWs, if_pos hs] at hx
    exact Or.inl (by simpa using hx)
  | case3 c hs =>
    intro x hx
    rw [collapseWs, if_neg hs] at hx
    exact Or.inr (by simpa using hx)
  | case4 c d rest hc hd ih =>
    intro x hx
    rw [collapseWs, if_pos hc, if_pos hd] at hx
    rcases ih x hx with h | h
    · exact Or.inl h
    · exact Or.inr (List.mem_cons_of_mem c h)
  | case5 c d rest hc hd ih =>
    intro x hx
    rw [collapseWs, if_pos hc, if_neg hd] at hx
    rcases List.mem_cons.mp hx with h | h
    · exact Or.inl h
    · rcases ih x h with h2 | h2
      · exact Or.inl h2
      · exact Or.inr (List.mem_cons_of_mem c h2)
  | case6 c d rest hc ih =>
    intro x hx
    rw [collapseWs, if_neg hc] at hx
    rcases List.mem_cons.mp hx with h | h
    · exact Or.inr (h ▸ List.mem_cons_self x _)
    · rcases ih x h with h2 | h2
      · exact Or.inl h2
      · exact Or.inr (List.mem_cons_of_mem c h2)

theorem collapseWs_space_eq :
    ∀ l : List Char, ∀ c ∈ collapseWs l, isSpace c = true → c = ' ' := by
  intro l
  induction l using collapseWs.induct with
  | case1 => intro c h; exact absurd h (by simp [collapseWs])
  | case2 c hs =>
    intro x hx _
    rw [collapseWs, if_pos hs] at hx
    simpa using hx
  | case3 c hs =>
    intro x hx hxs
    rw [collapseWs, if_neg hs] at hx
    have : x = c := by simpa using hx
    exact absurd (this ▸ hxs) hs
  | case4 c d rest hc hd ih =>
    intro x hx hxs
    rw [collapseWs, if_pos hc, if_pos hd] at hx
    exact ih x hx hxs
  | case5 c d rest hc hd ih =>
    intro x hx hxs
    rw [collapseWs, if_pos hc, if_neg hd] at hx
    rcases List.mem_cons.mp hx with h | h
    · exact h
    · exact ih x h hxs
  | case6 c d rest hc ih =>
    intro x hx hxs
    rw [collapseWs, if_neg hc] at hx
    rcases List.mem_cons.mp hx with h | h
    · exact absurd (h ▸ hxs) hc
    · exact ih x h hxs

theorem collapseWs_head? :
    ∀ l : List Char, l ≠ [] →
      (collapseWs l).head? = l.head?.map (fun c => if isSpace c then ' ' else c) := by
  intro l
  induction l using collapseWs.induct with
  | case1 => intro h; exact absurd rfl h
  | case2 c hs => intro _; simp [collapseWs, hs]
  | case3 c hs => intro _; simp [collapseWs, hs]
  | case4 c d rest hc hd ih =>
    intro _
    rw [collapseWs, if_pos hc, if_pos hd, ih (by simp)]
    simp [hc, hd]
  | case5 c d rest hc hd ih =>
    intro _
    rw [collapseWs, if_pos hc, if_neg hd]
    simp [hc]
  | case6 c d rest hc ih =>
    intro _
    rw [collapseWs, if_neg hc]
    simp [hc]

theorem collapseWs_noRun : ∀ l : List Char, NoRun (collapseWs l) := by
  intro l
  induction l using collapseWs.induct with
  | case1 => simp [collapseWs, NoRun]
  | case2 c hs => rw [NoRun, collapseWs, if_pos hs]; simp
  | case3 c hs => rw [NoRun, collapseWs, if_neg hs]; simp
  | case4 c d rest hc hd ih =>
    rw [NoRun, collapseWs, if_pos hc, if_pos hd]
    exact ih
  | case5 c d rest hc hd ih =>
    rw [NoRun, collapseWs, if_pos hc, if_neg hd]
    rw [List.chain'_cons']
    refine ⟨?_, ih⟩
    intro b hb
    rw [collapseWs_head? (d :: rest) (by simp)] at hb
    simp [hd] at hb
    subst hb
    intro hcontra
    exact hd hcontra.2
  | case6 c d rest hc ih =>
    rw [NoRun, collapseWs, if_neg hc]
    rw [List.chain'_cons']
    refine ⟨?_, ih⟩
    intro b _
    intro hcontra
    exact hc hcontra.1

theorem collapseWs_fixed :
    ∀ l : List Char, (∀ c ∈ l, isSpace c = true → c = ' ') → NoRun l → collapseWs l = l := by
  intro l
  induction l using collapseWs.induct with
  | case1 => intro _ _; rfl
  | case2 c hs =>
    intro hsp _
    rw [collapseWs, if_pos hs, hsp c (by simp) hs]
  | case3 c hs => intro _ _; rw [collapseWs, if_neg hs]
  | case4 c d rest hc hd ih =>
    intro _ hnr
    exfalso
    rw [NoRun, List.chain'_cons] at hnr
    exact hnr.1 ⟨hc, hd⟩
  | case5 c d rest hc hd ih =>
    intro hsp hnr
    rw [collapseWs, if_pos hc, if_neg hd]
    rw [NoRun, List.chain'_cons] at hnr
    rw [ih (fun x hx hxs => hsp x (List.mem_cons_of_mem c hx) hxs) hnr.2]
    rw [hsp c (by simp) hc]
  | case6 c d rest hc ih =>
    intro hsp hnr
    rw [collapseWs, if_neg hc]
    rw [NoRun, List.chain'_cons] at hnr
    rw [ih (fun x hx hxs => hsp x (List.mem_cons_of_mem c hx) hxs) hnr.2]

theorem pyStrip_eq (l : List Char) :
    pyStrip l = (l.dropWhile isSpace).rdropWhile isSpace := rfl

theorem head?_dropWhile_false (p : Char → Bool) :
    ∀ (l : List Char) (a : Char), (l.dropWhile p).head? = some a → p a = false := by
  intro l
  induction l with
  | nil => intro a h; simp at h
  | cons c rest ih =>
    intro a h
    rw [List.dropWhile_cons] at h
    by_cases hc : p c
    · rw [if_pos hc] at h
      exact ih a h
    · rw [if_neg hc] at h
      simp only [List.head?_cons, Option.some.injEq] at h
      rw [← h]
      exact Bool.not_eq_true _ ▸ (by simpa using hc)

theorem pyStrip_dropWhile_self (l : List Char) :
    (pyStrip l).dropWhile isSpace = pyStrip l := by
  cases h : pyStrip l with
  | nil => simp
  | cons a as =>
    have hpre := List.rdropWhile_prefix (p := isSpace) (l := l.dropWhile isSpace)
    rw [← pyStrip_eq, h] at hpre
    obtain ⟨t, ht⟩ := hpre
    have hhead : (l.dropWhile isSpace).head? = some a := by
      rw [← ht]; simp
    have haf : isSpace a = false := head?_dropWhile_false isSpace l a hhead
    simp [List.dropWhile_cons, haf]

theorem pyStrip_idem (l : List Char) : pyStrip (pyStrip l) = pyStrip l := by
  rw [pyStrip_eq (pyStrip l), pyStrip_dropWhile_self l]
  rw [pyStrip_eq l]
  exact List.rdropWhile_idempotent _ _

theorem pyStrip_subset : ∀ l : List Char, ∀ c ∈ pyStrip l, c ∈ l := by
  intro l c hc
  rw [pyStrip_eq] at hc
  exact (List.dropWhile_suffix isSpace).subset
    (( List.rdropWhile_prefix isSpace _).subset hc)

theorem pyStrip_length_le (l : List Char) : (pyStrip l).length ≤ l.length := by
  rw [pyStrip_eq]
  exact Nat.le_trans ( List.rdropWhile_prefix isSpace _).length_le
    (List.dropWhile_suffix isSpace).length_le

theorem pyStrip_noRun (l : List Char) (h : NoRun l) : NoRun (pyStrip l) := by
  rw [pyStrip_eq, NoRun]
  exact List.Chain'.prefix (h.suffix (List.dropWhile_suffix isSpace))
    ( List.rdropWhile_prefix isSpace _)

/-! ### Structure of clean underlying text without markers -/

theorem clean_text_eq_of_free (l : List Char) (hb : '[' ∉ l) (hs : '*' ∉ l) :
    clean_text l = pyStrip (collapseWs l) := by
  show pyStrip (collapseWs (subBullet (pySub editMatchLen []
    (pySub refMatchLen [] l)))) = _
  rw [pySub_ref_noop [] l hb, pySub_edit_noop [] l hb]
  unfold subBullet
  rw [subBulletF_noop_of_no_star l.length true l hs]

theorem clean_text_not_mem (l : List Char) (x : Char) (hx : x ≠ ' ') (h : x ∉ l)
    (hb : '[' ∉ l) (hs : '*' ∉ l) : x ∉ clean_text l := by
  rw [clean_text_eq_of_free l hb hs]
  intro hmem
  rcases collapseWs_mem l x (pyStrip_subset _ x hmem) with h1 | h1
  · exact hx h1
  · exact h h1

/-- C6: the claim `normalize(normalize(s)) = normalize(s)` for all `s` is
false: removing the reference marker `[2]` from `[1[2]3]` splices the
remaining text into the fresh marker `[13]`, which only a second pass
removes. -/
theorem C6_clean_text_not_idempotent_counterexample :
    clean_text (("[1[2]3]").data) = ("[13]").data ∧
    clean_text (clean_text (("[1[2]3]").data)) ≠ clean_text (("[1[2]3]").data) := by
  constructor
  · decide
  · decide

/-- C6 (amended): `clean_text` is idempotent on every string containing
neither `[` nor `*`; on such strings no marker removal fires, and
collapsing plus trimming of whitespace is idempotent.  (Full idempotence
fails: marker removal can splice new markers, see the counterexample.) -/
theorem C6_clean_text_idempotent_amended (l : List Char)
    (hb : '[' ∉ l) (hs : '*' ∉ l) :
    clean_text (clean_text l) = clean_text l := by
  have h1 : clean_text l = pyStrip (collapseWs l) := clean_text_eq_of_free l hb hs
  have hb2 : '[' ∉ clean_text l := clean_text_not_mem l '[' (by decide) hb hb hs
  have hs2 : '*' ∉ clean_text l := clean_text_not_mem l '*' (by decide) hs hb hs
  rw [clean_text_eq_of_free (clean_text l) hb2 hs2, h1]
  have hfix : collapseWs (pyStrip (collapseWs l)) = pyStrip (collapseWs l) :=
    collapseWs_fixed _
      (fun c hc hcs => collapseWs_space_eq l c (pyStrip_subset _ c hc) hcs)
      (pyStrip_noRun _ (collapseWs_noRun l))
  rw [hfix, pyStrip_idem]

/-- C6 witness: the amended idempotence applied at a concrete string. -/
theorem C6_witness :
    clean_text (clean_text (("hello   world ").data)) =
      clean_text (("hello   world ").data) :=
  C6_clean_text_idempotent_amended (("hello   world ").data) (by decide) (by decide)

/-! ### Lemmas about the bullet substitution -/

theorem drop_takeWhile_length (p : Char → Bool) (l : List Char) :
    l.drop (l.takeWhile p).length = l.dropWhile p := by
  induction l with
  | nil => rfl
  | cons c rest ih =>
    by_cases hc : p c
    · simp [List.takeWhile_cons, List.dropWhile_cons, hc, ih]
    · simp [List.takeWhile_cons, List.dropWhile_cons, hc]

theorem bulletMatch_eq_some (l : List Char) (rest2 : List Char)
    (h : l.dropWhile isSpace = '*' :: rest2) :
    bulletMatch l = some (bulletFlag (rest2.takeWhile isSpace), rest2.dropWhile isSpace) := by
  unfold bulletMatch
  rw [drop_takeWhile_length, h]
  rw [show (match '*' :: rest2 with
    | '*' :: rest2 =>
      some (bulletFlag (rest2.takeWhile isSpace), rest2.drop (rest2.takeWhile isSpace).length)
    | _ => (none : Option (Bool × List Char))) =
    some (bulletFlag (rest2.takeWhile isSpace), rest2.drop (rest2.takeWhile isSpace).length)
    from rfl]
  rw [drop_takeWhile_length]

theorem bulletMatch_eq_none (l : List Char)
    (h : ∀ rest2 : List Char, l.dropWhile isSpace ≠ '*' :: rest2) :
    bulletMatch l = none := by
  unfold bulletMatch
  rw [drop_takeWhile_length]
  split
  · next rest2 heq => exact absurd heq (h rest2)
  · rfl

theorem mem_of_getLast?_eq {l : List Char} {a : Char} (h : l.getLast? = some a) :
    a ∈ l := by
  obtain ⟨hne, ha⟩ := List.mem_getLast?_eq_getLast (show a ∈ l.getLast? from h)
  exact ha ▸ List.getLast_mem hne

theorem bulletFlag_false_of_no_newline (ws2 : List Char) (h : '\n' ∉ ws2) :
    bulletFlag ws2 = false := by
  unfold bulletFlag
  cases hg : ws2.getLast? with
  | none => rfl
  | some x =>
    have hx : x ∈ ws2 := mem_of_getLast?_eq hg
    have : x ≠ '\n' := fun hxe => h (hxe ▸ hx)
    simpa using this

theorem subBullet_id_of_nomatch (l : List Char) (h : bulletMatch l = none)
    (hn : '\n' ∉ l) : subBullet l = l := by
  cases l with
  | nil => rfl
  | cons c rest =>
    show subBulletF (rest.length + 1) true (c :: rest) = c :: rest
    rw [show subBulletF (rest.length + 1) true (c :: rest) =
      (match bulletMatch (c :: rest) with
        | some (b2, rem) => subBulletF rest.length b2 rem
        | none => c :: subBulletF rest.length (c == '\n') rest) from rfl, h]
    have hc : (c == '\n') = false := by
      simp only [beq_eq_false_iff_ne, ne_eq]
      exact fun hce => hn (hce ▸ List.mem_cons_self c rest)
    rw [hc, subBulletF_noop_of_false rest.length rest (not_mem_cons_parts hn).2]

/-- C8: the claim that a line-start asterisk not followed by whitespace is
left unchanged is false: the trailing `\s*` of `^\s*\*\s*` also matches
the empty string, so `clean_text` removes the asterisk of `*abcd`. -/
theorem C8_bullet_requires_no_whitespace_counterexample :
    clean_text (("*abcd").data) = ("abcd").data ∧
    ("*abcd").data ≠ ("abcd").data := by
  constructor
  · decide
  · decide

/-- C8 (amended): on a single-line text (no newline), the bullet step
removes leading whitespace, one asterisk and any (possibly empty) run of
whitespace after it, when the first non-whitespace character is an
asterisk; otherwise — in particular for any asterisk appearing later in
the line — the text is unchanged. -/
theorem C8_bullet_line_start_amended (l : List Char) (hn : '\n' ∉ l) :
    subBullet l =
      (match l.dropWhile isSpace with
        | '*' :: rest => rest.dropWhile isSpace
        | _ => l) := by
  cases hd : l.dropWhile isSpace with
  | nil =>
    rw [subBullet_id_of_nomatch l (bulletMatch_eq_none l (by rw [hd]; intro r h; cases h)) hn]
  | cons c rest2 =>
    by_cases hc : c = '*'
    · subst hc
      have hm := bulletMatch_eq_some l rest2 hd
      have hflag : bulletFlag (rest2.takeWhile isSpace) = false := by
        apply bulletFlag_false_of_no_newline
        intro hmem
        apply hn
        exact (List.dropWhile_suffix isSpace).subset
          (hd ▸ List.mem_cons_of_mem '*' (( List.takeWhile_prefix isSpace).subset hmem))
      rw [hflag] at hm
      have hlne : l ≠ [] := by
        intro he; rw [he] at hd; simp at hd
      obtain ⟨c0, rest0, he⟩ := List.exists_cons_of_ne_nil hlne
      subst he
      show subBulletF (rest0.length + 1) true (c0 :: rest0) = _
      rw [show subBulletF (rest0.length + 1) true (c0 :: rest0) =
        (match bulletMatch (c0 :: rest0) with
          | some (b2, rem) => subBulletF rest0.length b2 rem
          | none => c0 :: subBulletF rest0.length (c0 == '\n') rest0) from rfl, hm]
      have hsub : '\n' ∉ rest2.dropWhile isSpace := by
        intro hmem
        apply hn
        exact (List.dropWhile_suffix isSpace).subset
          (hd ▸ List.mem_cons_of_mem '*' ((List.dropWhile_suffix isSpace).subset hmem))
      show subBulletF rest0.length false (rest2.dropWhile isSpace) = rest2.dropWhile isSpace
      exact subBulletF_noop_of_false rest0.length _ hsub
    · have hm : bulletMatch l = none := by
        apply bulletMatch_eq_none
        intro r h
        rw [hd] at h
        simp only [List.cons.injEq] at h
        exact hc h.1
      rw [subBullet_id_of_nomatch l hm hn]
      split
      · next rest heq =>
        simp only [List.cons.injEq] at heq
        exact absurd heq.1 hc
      · rfl

/-- C8 witness: the amended bullet behaviour at concrete inputs. -/
theorem C8_witness :
    subBullet (("  * foo bar baz").data) = ("foo bar baz").data := by
  rw [C8_bullet_line_start_amended (("  * foo bar baz").data) (by decide)]
  decide

/-! ### Reference-marker removal (C7) -/

theorem hasRefMark_false_of_no_bracket :
    ∀ l : List Char, '[' ∉ l → hasRefMark l = false := by
  intro l
  induction l with
  | nil => intro _; rfl
  | cons c rest ih =>
    intro h
    show ((refMatchLen (c :: rest)).isSome || hasRefMark rest) = false
    rw [refMatchLen_none_of_head c rest (not_mem_cons_parts h).1,
      ih (not_mem_cons_parts h).2]
    rfl

theorem takeWhile_all_append (p : Char → Bool) (x : Char) (t : List Char)
    (hx : p x = false) :
    ∀ d : List Char, (∀ c ∈ d, p c = true) → (d ++ x :: t).takeWhile p = d := by
  intro d
  induction d with
  | nil => intro _; simp [List.takeWhile_cons, hx]
  | cons c drest ih =>
    intro hall
    simp only [List.cons_append, List.takeWhile_cons]
    rw [hall c (by simp), ih (fun e he => hall e (List.mem_cons_of_mem c he))]
    simp

theorem drop_append_cons (d : List Char) (x : Char) (t : List Char) :
    (d ++ x :: t).drop (d.length + 1) = t := by
  rw [show d ++ x :: t = (d ++ [x]) ++ t by simp]
  rw [show d.length + 1 = (d ++ [x]).length by simp]
  exact List.drop_left _ _

theorem refMatchLen_marker (d t : List Char) (hne : d ≠ [])
    (hdig : ∀ c ∈ d, Char.isDigit c = true) :
    refMatchLen ('[' :: (d ++ (']' :: t))) = some (d.length + 2) := by
  show (if '[' = '[' then
    (if ((d ++ (']' :: t)).takeWhile Char.isDigit).isEmpty then none
     else match (d ++ (']' :: t)).drop ((d ++ (']' :: t)).takeWhile Char.isDigit).length with
       | ']' :: _ => some (((d ++ (']' :: t)).takeWhile Char.isDigit).length + 2)
       | _ => none)
    else none) = some (d.length + 2)
  rw [if_pos rfl, takeWhile_all_append Char.isDigit ']' t (by decide) d hdig]
  rw [if_neg (by simpa using hne)]
  rw [show (d ++ (']' :: t)).drop d.length = ']' :: t from List.drop_left d (']' :: t)]
  rfl

theorem pySub_ref_append (t : List Char) :
    ∀ b : List Char, '[' ∉ b →
      pySub refMatchLen [] (b ++ t) = b ++ pySub refMatchLen [] t := by
  intro b
  induction b with
  | nil => intro _; rfl
  | cons c brest ih =>
    intro h
    rw [List.cons_append,
      pySub_cons_none _ _ _ _ (refMatchLen_none_of_head c _ (not_mem_cons_parts h).1),
      ih (not_mem_cons_parts h).2]
    rfl

theorem pySub_ref_glue :
    ∀ (ps : List (List Char × List Char)) (b0 : List Char), '[' ∉ b0 →
      (∀ p ∈ ps, p.1 ≠ [] ∧ (∀ c ∈ p.1, Char.isDigit c = true) ∧ '[' ∉ p.2) →
      pySub refMatchLen [] (glueRef b0 ps) = b0 ++ (ps.map Prod.snd).join := by
  intro ps
  induction ps with
  | nil =>
    intro b0 hb0 _
    simpa [glueRef] using pySub_ref_noop [] b0 hb0
  | cons p rest ih =>
    intro b0 hb0 hps
    obtain ⟨d, b⟩ := p
    obtain ⟨hdne, hdig, hbfree⟩ := hps (d, b) (by simp)
    have hrest : ∀ q ∈ rest, q.1 ≠ [] ∧ (∀ c ∈ q.1, Char.isDigit c = true) ∧ '[' ∉ q.2 :=
      fun q hq => hps q (List.mem_cons_of_mem _ hq)
    show pySub refMatchLen []
      (b0 ++ (('[' :: (d ++ (']' :: b))) ++
        (rest.map (fun p => '[' :: (p.1 ++ (']' :: p.2)))).join)) = _
    rw [pySub_ref_append _ b0 hb0]
    rw [show ('[' :: (d ++ (']' :: b))) ++
        (rest.map (fun p => '[' :: (p.1 ++ (']' :: p.2)))).join =
        '[' :: (d ++ (']' ::
          (b ++ (rest.map (fun p => '[' :: (p.1 ++ (']' :: p.2)))).join))) by simp]
    rw [pySub_cons_some _ _ _ _ _ (refMatchLen_marker d _ hdne hdig)]
    rw [show d.length + 2 - 1 = d.length + 1 from rfl]
    rw [drop_append_cons]
    rw [show b ++ (rest.map (fun p => '[' :: (p.1 ++ (']' :: p.2)))).join =
      glueRef b rest from rfl]
    rw [ih b hbfree hrest]
    simp

theorem subF_subset (m : List Char → Option Nat) (repl : List Char) :
    ∀ (f : Nat) (l : List Char), ∀ x ∈ subF m repl f l, x ∈ repl ∨ x ∈ l := by
  intro f
  induction f with
  | zero => intro l x hx; exact Or.inr hx
  | succ f ih =>
    intro l x hx
    cases l with
    | nil => exact Or.inr hx
    | cons c rest =>
      rw [show subF m repl (f + 1) (c :: rest) =
        (match m (c :: rest) with
          | some n => repl ++ subF m repl f (rest.drop (n - 1))
          | none => c :: subF m repl f rest) from rfl] at hx
      cases hm : m (c :: rest) with
      | some n =>
        rw [hm] at hx
        rcases List.mem_append.mp hx with h | h
        · exact Or.inl h
        · rcases ih _ x h with h2 | h2
          · exact Or.inl h2
          · exact Or.inr (List.mem_cons_of_mem c (List.mem_of_mem_drop h2))
      | none =>
        rw [hm] at hx
        rcases List.mem_cons.mp hx with h | h
        · exact Or.inr (h ▸ List.mem_cons_self x _)
        · rcases ih rest x h with h2 | h2
          · exact Or.inl h2
          · exact Or.inr (List.mem_cons_of_mem c h2)

theorem pySub_subset (m : List Char → Option Nat) (repl : List Char)
    (l : List Char) (x : Char) (hx : x ∈ pySub m repl l) : x ∈ repl ∨ x ∈ l :=
  subF_subset m repl l.length l x hx

theorem bulletMatch_some_subset (l : List Char) (b2 : Bool) (rem : List Char)
    (h : bulletMatch l = some (b2, rem)) : ∀ x ∈ rem, x ∈ l := by
  intro x hx
  unfold bulletMatch at h
  revert h
  split
  · next rest2 heq =>
    intro h
    simp only [Option.some.injEq, Prod.mk.injEq] at h
    have hx2 : x ∈ rest2 := List.mem_of_mem_drop (h.2 ▸ hx)
    exact List.mem_of_mem_drop (heq ▸ List.mem_cons_of_mem '*' hx2)
  · intro h; cases h

theorem subBulletF_subset :
    ∀ (f : Nat) (b : Bool) (l : List Char), ∀ x ∈ subBulletF f b l, x ∈ l := by
  intro f
  induction f with
  | zero => intro b l x hx; exact hx
  | succ f ih =>
    intro b l x hx
    cases l with
    | nil => cases b <;> exact absurd hx (by simp [subBulletF])
    | cons c rest =>
      cases b with
      | true =>
        rw [show subBulletF (f + 1) true (c :: rest) =
          (match bulletMatch (c :: rest) with
            | some (b2, rem) => subBulletF f b2 rem
            | none => c :: subBulletF f (c == '\n') rest) from rfl] at hx
        cases hm : bulletMatch (c :: rest) with
        | some p =>
          obtain ⟨b2, rem⟩ := p
          rw [hm] at hx
          exact bulletMatch_some_subset _ _ _ hm x (ih b2 rem x hx)
        | none =>
          rw [hm] at hx
          rcases List.mem_cons.mp hx with h | h
          · exact h ▸ List.mem_cons_self x _
          · exact List.mem_cons_of_mem c (ih _ rest x h)
      | false =>
        rcases List.mem_cons.mp hx with h | h
        · exact h ▸ List.mem_cons_self x _
        · exact List.mem_cons_of_mem c (ih _ rest x h)

/-- Any character of `clean_text l` is a space or a character of `l`. -/
theorem clean_text_subset (l : List Char) (x : Char) (hx : x ∈ clean_text l) :
    x = ' ' ∨ x ∈ l := by
  have h1 := pyStrip_subset _ x hx
  rcases collapseWs_mem _ x h1 with he | h2
  · exact Or.inl he
  · have h3 := subBulletF_subset _ true _ x h2
    rcases pySub_subset editMatchLen [] _ x h3 with h4 | h4
    · exact absurd h4 (by simp)
    · rcases pySub_subset refMatchLen [] _ x h4 with h5 | h5
      · exact absurd h5 (by simp)
      · exact Or.inr h5

/-- C7: the claim that `normalize(s)` contains no reference marker is
false: `clean_text` applied to `[1[2]3]` (which contains the marker `[2]`)
yields `[13]`, which again contains a reference marker — removing a
matched marker can splice the surrounding text into a new one. -/
theorem C7_ref_markers_counterexample :
    hasRefMark (("[1[2]3]").data) = true ∧
    clean_text (("[1[2]3]").data) = ("[13]").data ∧
    hasRefMark (clean_text (("[1[2]3]").data)) = true := by
  refine ⟨?_, ?_, ?_⟩ <;> decide

/-- C7 (amended): when the text decomposes as bracket-free blocks
interleaved with reference markers `[dᵢ]` (each `dᵢ` a non-empty digit
string, each block containing no `[`), the reference-marker pass removes
exactly the markers and preserves the surrounding blocks, and the fully
normalized text contains no reference marker.  Without the bracket-free
restriction a removal can splice a new marker (see the counterexample). -/
theorem C7_ref_marker_removal_amended (b0 : List Char)
    (ps : List (List Char × List Char)) (hb0 : '[' ∉ b0)
    (hps : ∀ p ∈ ps, p.1 ≠ [] ∧ (∀ c ∈ p.1, Char.isDigit c = true) ∧ '[' ∉ p.2) :
    pySub refMatchLen [] (glueRef b0 ps) = b0 ++ (ps.map Prod.snd).join ∧
    hasRefMark (clean_text (glueRef b0 ps)) = false := by
  have h1 := pySub_ref_glue ps b0 hb0 hps
  refine ⟨h1, ?_⟩
  have hRfree : '[' ∉ b0 ++ (ps.map Prod.snd).join := by
    intro hmem
    rcases List.mem_append.mp hmem with h | h
    · exact hb0 h
    · obtain ⟨m, hm, hxm⟩ := List.mem_join.mp h
      obtain ⟨p, hp, hpe⟩ := List.mem_map.mp hm
      exact (hps p hp).2.2 (hpe ▸ hxm)
  apply hasRefMark_false_of_no_bracket
  intro hmem
  have hmem2 : '[' ∈ pyStrip (collapseWs (subBullet (pySub editMatchLen []
      (pySub refMatchLen [] (glueRef b0 ps))))) := hmem
  rw [h1] at hmem2
  have h2 := pyStrip_subset _ '[' hmem2
  rcases collapseWs_mem _ '[' h2 with he | h3
  · exact absurd he (by decide)
  · have h4 := subBulletF_subset _ true _ '[' h3
    rcases pySub_subset editMatchLen [] _ '[' h4 with h5 | h5
    · exact absurd h5 (by simp)
    · exact hRfree h5

/-- C7 witness: the amended statement at a concrete decomposition. -/
theorem C7_witness :
    pySub refMatchLen [] (glueRef (("see ").data) [((("12").data), ((" next").data))]) =
      ("see  next").data ∧
    hasRefMark (clean_text (glueRef (("see ").data)
      [((("12").data), ((" next").data))])) = false := by
  have h := C7_ref_marker_removal_amended (("see ").data)
    [((("12").data), ((" next").data))] (by decide)
    (by intro p hp; simp at hp; rw [hp]; exact ⟨by decide, by decide, by decide⟩)
  simpa using h

/-! ### Lemmas about the candidate selector -/

theorem is_valid_false_iff (l : List Char) :
    is_valid_text l = false ↔ l.length < 30 := by
  simp [is_valid_text]

theorem is_valid_isEmpty_false {l : List Char} (h : is_valid_text l = true) :
    l.isEmpty = false := by
  have h30 : 30 ≤ l.length := by simpa [is_valid_text] using h
  cases l with
  | nil => simp at h30
  | cons c rest => rfl

theorem pyStrip_clean_text (l : List Char) :
    pyStrip (clean_text l) = clean_text l := by
  show pyStrip (pyStrip (collapseWs (subBullet (pySub editMatchLen []
    (pySub refMatchLen [] l))))) = _
  exact pyStrip_idem _

theorem choose_valid_sentence_valid (text s : List Char)
    (h : choose_valid_sentence text = some s) : is_valid_text s = true := by
  unfold choose_valid_sentence at h
  cases hf : (split_sentences text).find? is_valid_text with
  | some x =>
    rw [hf] at h
    simp only [Option.some.injEq] at h
    exact h ▸ List.find?_some hf
  | none =>
    rw [hf] at h
    by_cases hv : is_valid_text (pyStrip text) = true
    · simp only [hv, if_true, Option.some.injEq] at h
      exact h ▸ hv
    · simp only [Bool.not_eq_true] at hv
      simp [hv] at h

theorem splitChunks_ne_nil : ∀ l : List Char, splitChunks l ≠ [] := by
  intro l
  cases l with
  | nil => simp [splitChunks]
  | cons c rest =>
    rw [splitChunks]
    by_cases hc : isTerminal c = true
    · simp [hc]
    · rw [if_neg hc]
      cases hs : splitChunks rest <;> simp

theorem splitChunks_length_le :
    ∀ l : List Char, ∀ k ∈ splitChunks l, k.length ≤ l.length := by
  intro l
  induction l with
  | nil =>
    intro k hk
    have : k = [] := by simpa [splitChunks] using hk
    simp [this]
  | cons c rest ih =>
    intro k hk
    rw [splitChunks] at hk
    by_cases hc : isTerminal c = true
    · rw [if_pos hc] at hk
      rcases List.mem_cons.mp hk with h | h
      · simp [h]
      · exact Nat.le_succ_of_le (ih k h)
    · rw [if_neg hc] at hk
      cases hs : splitChunks rest with
      | nil => exact absurd (hs ▸ splitChunks_ne_nil rest) (fun f => f rfl)
      | cons k0 more =>
        rw [hs] at hk
        rcases List.mem_cons.mp hk with h | h
        · have h0 : k0.length ≤ rest.length := ih k0 (hs ▸ List.mem_cons_self k0 more)
          simp [h, Nat.succ_le_succ h0]
        · exact Nat.le_succ_of_le (ih k (hs ▸ List.mem_cons_of_mem k0 h))

theorem split_sentences_length_le (t : List Char) :
    ∀ s ∈ split_sentences t, s.length ≤ t.length := by
  intro s hs
  obtain ⟨hmem, -⟩ := List.mem_filter.mp hs
  obtain ⟨k, hk, hsk⟩ := List.mem_map.mp hmem
  calc s.length = (pyStrip k).length := by rw [hsk]
    _ ≤ k.length := pyStrip_length_le k
    _ ≤ t.length := splitChunks_length_le t k hk

theorem find?_none_of_short (t : List Char) (h : t.length < 30) :
    (split_sentences t).find? is_valid_text = none := by
  rw [List.find?_eq_none]
  intro s hs hvalid
  have h1 : 30 ≤ s.length := by simpa [is_valid_text] using hvalid
  exact absurd (Nat.le_trans h1 (split_sentences_length_le t s hs)) (by omega)

theorem choose_valid_sentence_none_of_invalid (t : List Char)
    (hstrip : pyStrip t = t) (h : is_valid_text t = false) :
    choose_valid_sentence t = none := by
  unfold choose_valid_sentence
  rw [find?_none_of_short t ((is_valid_false_iff t).mp h), hstrip]
  simp [h]

/-- Every candidate returned by the selector satisfies the Validity
Predicate, whichever of the three tiers produced it. -/
theorem fetch_random_summary_valid (a : Article) (t x : List Char)
    (h : fetch_random_summary a = some (t, x)) : is_valid_text x = true := by
  simp only [fetch_random_summary] at h
  cases hT : fetch_random_page_title a with
  | none => rw [hT] at h; cases h
  | some title =>
    rw [hT] at h
    simp only at h
    by_cases h1 : (!(fetch_overview_section_text a).isEmpty &&
        is_valid_text (fetch_overview_section_text a)) = true
    · rw [if_pos h1] at h
      simp only [Option.some.injEq, Prod.mk.injEq] at h
      rw [← h.2]
      exact (Bool.and_eq_true _ _).mp h1 |>.2
    · rw [if_neg h1] at h
      by_cases h2 : (!(fetch_lead_extract_all a).isEmpty &&
          is_valid_text (fetch_lead_extract_all a)) = true
      · rw [if_pos h2] at h
        simp only [Option.some.injEq, Prod.mk.injEq] at h
        rw [← h.2]
        exact (Bool.and_eq_true _ _).mp h2 |>.2
      · rw [if_neg h2] at h
        by_cases h3 : (!(fetch_lead_extract_all a).isEmpty) = true
        · rw [if_pos h3] at h
          cases hc : choose_valid_sentence (fetch_lead_extract_all a) with
          | none => rw [hc] at h; cases h
          | some p =>
            rw [hc] at h
            have hpv := choose_valid_sentence_valid _ p hc
            simp only [is_valid_isEmpty_false hpv, Bool.not_false, if_true,
              Option.some.injEq, Prod.mk.injEq] at h
            exact h.2 ▸ hpv
        · rw [if_neg h3] at h
          cases h

/-- C2: whenever the normalized Overview-section text is valid, the
selector returns it together with the title, never the lead. -/
theorem C2_overview_priority (a : Article) (t : List Char)
    (hT : fetch_random_page_title a = some t)
    (hO : is_valid_text (fetch_overview_section_text a) = true) :
    fetch_random_summary a = some (t, fetch_overview_section_text a) := by
  simp only [fetch_random_summary, hT]
  rw [is_valid_isEmpty_false hO, hO]
  rfl

/-- C2 witness: a concrete article whose overview section and lead are
both valid is resolved to the overview text. -/
theorem C2_witness :
    fetch_random_summary
      (Article.mk (("Tree").data)
        (some (("<p>An overview sentence that is long enough.</p>").data))
        (("A lead that is also long enough to qualify.").data)) =
    some ((("Tree").data), (("An overview sentence that is long enough.").data)) := by
  rw [C2_overview_priority _ (("Tree").data) (by decide) (by decide)]
  decide

theorem summary_sentence_tier_eq (a : Article) (t : List Char)
    (hT : fetch_random_page_title a = some t)
    (hO : is_valid_text (fetch_overview_section_text a) = false)
    (hL : is_valid_text (fetch_lead_extract_all a) = false) :
    fetch_random_summary a =
      ((split_sentences (fetch_lead_extract_all a)).find? is_valid_text).map
        (fun s => (t, s)) := by
  simp only [fetch_random_summary, hT]
  rw [hO, Bool.and_false, if_neg (by simp), hL, Bool.and_false, if_neg (by simp)]
  by_cases hE : (fetch_lead_extract_all a).isEmpty = true
  · have hnil : fetch_lead_extract_all a = [] := by
      cases hl : fetch_lead_extract_all a
      · rfl
      · rw [hl] at hE; cases hE
    rw [hnil]
    simp only [List.isEmpty_nil, Bool.not_true, if_false]
    rw [show split_sentences [] = [] from rfl]
    rfl
  · simp only [Bool.not_eq_true] at hE
    rw [hE]
    simp only [Bool.not_false, if_true]
    cases hf : (split_sentences (fetch_lead_extract_all a)).find? is_valid_text with
    | some s =>
      have hc : choose_valid_sentence (fetch_lead_extract_all a) = some s := by
        unfold choose_valid_sentence
        rw [hf]
      rw [hc]
      have hsv := choose_valid_sentence_valid _ s hc
      simp [is_valid_isEmpty_false hsv]
    | none =>
      rw [choose_valid_sentence_none_of_invalid (fetch_lead_extract_all a)
        (show pyStrip (fetch_lead_extract_all a) = fetch_lead_extract_all a from
          pyStrip_clean_text a.leadRaw) hL]
      rfl

/-- C3: when neither the overview text nor the lead text is valid, the
selector returns exactly the first sentence of the split lead that is
individually valid, if any (paired with the title), and nothing else. -/
theorem C3_sentence_tier (a : Article) (t : List Char)
    (hT : fetch_random_page_title a = some t)
    (hO : is_valid_text (fetch_overview_section_text a) = false)
    (hL : is_valid_text (fetch_lead_extract_all a) = false) :
    fetch_random_summary a =
      ((split_sentences (fetch_lead_extract_all a)).find? is_valid_text).map
        (fun s => (t, s)) :=
  summary_sentence_tier_eq a t hT hO hL

/-- C3 witness: concrete article with an invalid overview and an invalid
lead; the selector output equals the mapped first-valid-sentence search
(both being `none` here, as no sentence of a short lead can be valid). -/
theorem C3_witness :
    fetch_random_summary (Article.mk (("T").data) none (("Short。Tiny.").data)) =
      ((split_sentences (fetch_lead_extract_all
        (Article.mk (("T").data) none (("Short。Tiny.").data)))).find? is_valid_text).map
        (fun s => ((("T").data), s)) :=
  C3_sentence_tier _ (("T").data) (by decide) (by decide) (by decide)

/-- C10: if the overview text is invalid and the lead text is invalid
(shorter than 30 characters or empty), the selector returns nothing:
every sentence split off the lead is at most as long as the lead, so the
third tier can never produce a valid candidate. -/
theorem C10_no_candidate_from_invalid_lead (a : Article)
    (hO : is_valid_text (fetch_overview_section_text a) = false)
    (hL : is_valid_text (fetch_lead_extract_all a) = false) :
    (∀ s ∈ split_sentences (fetch_lead_extract_all a),
      s.length ≤ (fetch_lead_extract_all a).length) ∧
    fetch_random_summary a = none := by
  refine ⟨split_sentences_length_le _, ?_⟩
  cases hT : fetch_random_page_title a with
  | none => simp [fetch_random_summary, hT]
  | some t =>
    rw [summary_sentence_tier_eq a t hT hO hL]
    rw [find?_none_of_short _ ((is_valid_false_iff _).mp hL)]
    rfl

/-- C10 witness: the implicit property at a concrete article. -/
theorem C10_witness :
    fetch_random_summary (Article.mk (("T").data) none (("One。Two!").data)) = none :=
  (C10_no_candidate_from_invalid_lead
    (Article.mk (("T").data) none (("One。Two!").data)) (by decide) (by decide)).2

/-! ### Lemmas about the retry loop and the driver -/

theorem tryLoop_step (env : Nat → FetchOutcome) (idx k : Nat) :
    tryLoop env idx (k + 1) =
      (match env idx with
        | .raise =>
          TryResult.mk (tryLoop env (idx + 1) k).found (tryLoop env (idx + 1) k).next
            ((tryLoop env (idx + 1) k).errors + 1)
        | .ret a =>
          match fetch_random_summary a with
          | some rcd => TryResult.mk (some rcd) (idx + 1) 0
          | none => tryLoop env (idx + 1) k) := rfl

theorem recordLoop_step (env : Nat → FetchOutcome) (mt c idx : Nat) :
    recordLoop env mt (c + 1) idx =
      (match (tryLoop env idx mt).found with
        | some rcd => (rcd :: (recordLoop env mt c (tryLoop env idx mt).next).1,
            (recordLoop env mt c (tryLoop env idx mt).next).2)
        | none => recordLoop env mt c (tryLoop env idx mt).next) := rfl

theorem tryLoop_found_valid (env : Nat → FetchOutcome) :
    ∀ (k idx : Nat) (r : List Char × List Char),
      (tryLoop env idx k).found = some r → is_valid_text r.2 = true := by
  intro k
  induction k with
  | zero => intro idx r h; cases h
  | succ k ih =>
    intro idx r h
    rw [tryLoop_step] at h
    cases he : env idx with
    | raise =>
      simp only [he] at h
      exact ih (idx + 1) r h
    | ret a =>
      simp only [he] at h
      cases hf : fetch_random_summary a with
      | some rcd =>
        simp only [hf, Option.some.injEq] at h
        obtain ⟨t, x⟩ := rcd
        exact h ▸ fetch_random_summary_valid a t x hf
      | none =>
        simp only [hf] at h
        exact ih (idx + 1) r h

theorem recordLoop_rows_valid (env : Nat → FetchOutcome) (mt : Nat) :
    ∀ (c idx : Nat) (r : List Char × List Char),
      r ∈ (recordLoop env mt c idx).1 → is_valid_text r.2 = true := by
  intro c
  induction c with
  | zero => intro idx r h; cases h
  | succ c ih =>
    intro idx r h
    rw [recordLoop_step] at h
    cases hf : (tryLoop env idx mt).found with
    | some rcd =>
      rw [hf] at h
      rcases List.mem_cons.mp h with h1 | h1
      · exact h1 ▸ tryLoop_found_valid env mt idx rcd hf
      · exact ih _ r h1
    | none =>
      rw [hf] at h
      exact ih _ r h

/-- C1: every (title, text) record the program persists satisfies the
Validity Predicate (at least 30 Unicode characters) at the moment of its
selection, whichever of the three selection tiers produced it. -/
theorem C1_persisted_records_valid (count max_tries : Int)
    (env : Nat → FetchOutcome) (r : List Char × List Char)
    (h : r ∈ (main count max_tries env).rows) : is_valid_text r.2 = true := by
  unfold main at h
  by_cases h1 : count ≤ 0
  · rw [if_pos h1] at h; cases h
  · rw [if_neg h1] at h
    by_cases h2 : max_tries ≤ 0
    · rw [if_pos h2] at h; cases h
    · rw [if_neg h2] at h
      exact recordLoop_rows_valid env max_tries.toNat count.toNat 0 r h

/-- C1 witness: a concrete run saves one record, and it is valid. -/
theorem C1_witness :
    is_valid_text (((("T").data),
      (("a lead text which is long enough to pass").data)) :
        List Char × List Char).2 = true :=
  C1_persisted_records_valid 1 1
    (fun _ => FetchOutcome.ret (Article.mk (("T").data) none
      (("a lead text which is long enough to pass").data)))
    ((("T").data), (("a lead text which is long enough to pass").data))
    (by decide)

theorem tryLoop_next_le (env : Nat → FetchOutcome) :
    ∀ (k idx : Nat), (tryLoop env idx k).next ≤ idx + k := by
  intro k
  induction k with
  | zero => intro idx; exact Nat.le_refl idx
  | succ k ih =>
    intro idx
    rw [tryLoop_step]
    cases he : env idx with
    | raise =>
      simp only [he]
      have := ih (idx + 1)
      omega
    | ret a =>
      simp only [he]
      cases hf : fetch_random_summary a with
      | some rcd => simp only [hf]; omega
      | none =>
        simp only [hf]
        have := ih (idx + 1)
        omega

theorem tryLoop_all_fail (env : Nat → FetchOutcome) :
    ∀ (k idx : Nat), (∀ j, j < k → failsAt env (idx + j) = true) →
      (tryLoop env idx k).found = none := by
  intro k
  induction k with
  | zero => intro idx _; rfl
  | succ k ih =>
    intro idx h
    rw [tryLoop_step]
    have h0 := h 0 (Nat.succ_pos k)
    rw [Nat.add_zero] at h0
    cases he : env idx with
    | raise =>
      simp only [he]
      exact ih (idx + 1) (fun j hj => by
        have := h (j + 1) (Nat.succ_lt_succ hj)
        rwa [show idx + (j + 1) = idx + 1 + j by omega] at this)
    | ret a =>
      simp only [failsAt, he] at h0
      cases hf : fetch_random_summary a with
      | some rcd => simp [hf] at h0
      | none =>
        simp only [he, hf]
        exact ih (idx + 1) (fun j hj => by
          have := h (j + 1) (Nat.succ_lt_succ hj)
          rwa [show idx + (j + 1) = idx + 1 + j by omega] at this)

/-- C4: the per-record fetch loop makes at most `max_tries` attempts; a
first-try candidate is returned immediately (one attempt consumed, no
remaining tries used); an exception consumes exactly one try while the
attempt counter advances and one more failure is reported; if every try
fails, the record yields nothing; and a record that yields nothing is
skipped — the remaining records continue from the next fetch index. -/
theorem C4_retry_loop (env : Nat → FetchOutcome) (idx k : Nat) :
    ((tryLoop env idx k).next ≤ idx + k) ∧
    (∀ a r, k ≠ 0 → env idx = FetchOutcome.ret a → fetch_random_summary a = some r →
      tryLoop env idx k = TryResult.mk (some r) (idx + 1) 0) ∧
    (k ≠ 0 → env idx = FetchOutcome.raise →
      tryLoop env idx k = TryResult.mk (tryLoop env (idx + 1) (k - 1)).found
        (tryLoop env (idx + 1) (k - 1)).next ((tryLoop env (idx + 1) (k - 1)).errors + 1)) ∧
    ((∀ j, j < k → failsAt env (idx + j) = true) → (tryLoop env idx k).found = none) ∧
    (∀ c, (tryLoop env idx k).found = none →
      (recordLoop env k (c + 1) idx).1 = (recordLoop env k c (tryLoop env idx k).next).1) := by
  refine ⟨tryLoop_next_le env k idx, ?_, ?_, tryLoop_all_fail env k idx, ?_⟩
  · intro a r hk he hf
    cases k with
    | zero => exact absurd rfl hk
    | succ k => simp only [tryLoop_step, he, hf]
  · intro hk he
    cases k with
    | zero => exact absurd rfl hk
    | succ k => simp only [tryLoop_step, he, Nat.add_sub_cancel]
  · intro c hf
    rw [recordLoop_step, hf]

/-- C4 witness: a concrete environment whose first attempt raises and
whose second returns a candidate; all clauses applied concretely. -/
theorem C4_witness :
    ((tryLoop (fun i => if i = 0 then FetchOutcome.raise
      else FetchOutcome.ret (Article.mk (("T").data) none
        (("a lead text which is long enough to pass").data))) 0 5).next ≤ 0 + 5) ∧
    (tryLoop (fun i => if i = 0 then FetchOutcome.raise
      else FetchOutcome.ret (Article.mk (("T").data) none
        (("a lead text which is long enough to pass").data))) 1 4 =
      TryResult.mk (some ((("T").data),
        (("a lead text which is long enough to pass").data))) 2 0) ∧
    (tryLoop (fun i => if i = 0 then FetchOutcome.raise
      else FetchOutcome.ret (Article.mk (("T").data) none
        (("a lead text which is long enough to pass").data))) 0 5 =
      TryResult.mk (tryLoop (fun i => if i = 0 then FetchOutcome.raise
        else FetchOutcome.ret (Article.mk (("T").data) none
          (("a lead text which is long enough to pass").data))) 1 4).found
        (tryLoop (fun i => if i = 0 then FetchOutcome.raise
          else FetchOutcome.ret (Article.mk (("T").data) none
            (("a lead text which is long enough to pass").data))) 1 4).next
        ((tryLoop (fun i => if i = 0 then FetchOutcome.raise
          else FetchOutcome.ret (Article.mk (("T").data) none
            (("a lead text which is long enough to pass").data))) 1 4).errors + 1)) ∧
    ((tryLoop (fun _ => FetchOutcome.raise) 0 3).found = none) := by
  refine ⟨(C4_retry_loop _ 0 5).1, ?_, ?_, ?_⟩
  · exact (C4_retry_loop _ 1 4).2.1 (Article.mk (("T").data) none
      (("a lead text which is long enough to pass").data))
      ((("T").data), (("a lead text which is long enough to pass").data))
      (by decide) (by decide) (by decide)
  · exact (C4_retry_loop _ 0 5).2.2.1 (by decide) (by decide)
  · exact (C4_retry_loop (fun _ => FetchOutcome.raise) 0 3).2.2.2.1 (by decide)

/-- C5: with valid flags the session is created, the exit code is 0
exactly when at least one record was saved and 1 otherwise; a
non-positive count or try limit makes the run abort with exit code 1
before any network activity (no session, no fetch call, nothing saved). -/
theorem C5_exit_codes (count max_tries : Int) (env : Nat → FetchOutcome) :
    (0 < count → 0 < max_tries →
      (main count max_tries env).sessionCreated = true ∧
      (main count max_tries env).exitCode =
        (if (main count max_tries env).rows = [] then 1 else 0) ∧
      ((main count max_tries env).exitCode = 0 ↔ (main count max_tries env).rows ≠ [])) ∧
    ((count ≤ 0 ∨ max_tries ≤ 0) →
      main count max_tries env = RunResult.mk 1 [] false 0) := by
  constructor
  · intro hc hm
    have h1 : ¬count ≤ 0 := by omega
    have h2 : ¬max_tries ≤ 0 := by omega
    have hmain : main count max_tries env =
        RunResult.mk
          (if (recordLoop env max_tries.toNat count.toNat 0).1.isEmpty then 1 else 0)
          (recordLoop env max_tries.toNat count.toNat 0).1 true
          (recordLoop env max_tries.toNat count.toNat 0).2 := by
      unfold main
      rw [if_neg h1, if_neg h2]
    rw [hmain]
    by_cases hnil : (recordLoop env max_tries.toNat count.toNat 0).1 = []
    · simp [hnil]
    · have hie : (recordLoop env max_tries.toNat count.toNat 0).1.isEmpty = false := by
        cases hx : (recordLoop env max_tries.toNat count.toNat 0).1 with
        | nil => exact absurd hx hnil
        | cons a as => rfl
      simp [hie, hnil]
  · intro h
    unfold main
    rcases h with h | h
    · rw [if_pos h]
    · by_cases h1 : count ≤ 0
      · rw [if_pos h1]
      · rw [if_neg h1, if_pos h]

/-- C5 witness: a successful run exits 0; a run with count 0 aborts with
exit code 1, no session and no fetch calls. -/
theorem C5_witness :
    ((main 1 1 (fun _ => FetchOutcome.ret (Article.mk (("T").data) none
      (("a lead text which is long enough to pass").data)))).exitCode = 0) ∧
    main 0 1 (fun _ => FetchOutcome.raise) = RunResult.mk 1 [] false 0 := by
  constructor
  · exact ((C5_exit_codes 1 1 _).1 (by decide) (by decide)).2.2.mpr (by decide)
  · exact (C5_exit_codes 0 1 _).2 (Or.inl (by decide))

/-! ### CSV append semantics (C9) -/

theorem appendAll_nonempty :
    ∀ (recs : List (List Char × List Char)) (rows : List CsvRow), rows ≠ [] →
      appendAll (some rows) recs = some (rows ++ recs.map (fun r => [r.1, r.2])) := by
  intro recs
  induction recs with
  | nil => intro rows _; simp [appendAll]
  | cons r rs ih =>
    intro rows hne
    show appendAll (some (append_to_csv (some rows) r.1 r.2)) rs = _
    have hre : append_to_csv (some rows) r.1 r.2 = rows ++ [[r.1, r.2]] := by
      have hie : rows.isEmpty = false := by
        cases rows with
        | nil => exact absurd rfl hne
        | cons a as => rfl
      simp [append_to_csv, hie]
    rw [hre, ih (rows ++ [[r.1, r.2]]) (by simp)]
    simp

/-- C9: appending records to a fresh CSV target (absent file, or existing
empty file) writes the header row exactly once, followed by one data row
per record in order; appending to a non-empty file adds only the data
rows, never a second header. -/
theorem C9_csv_append (recs : List (List Char × List Char)) (hne : recs ≠ []) :
    (∀ st : Option (List CsvRow), (st = none ∨ st = some []) →
      appendAll st recs = some (headerRow :: recs.map (fun r => [r.1, r.2]))) ∧
    (∀ rows : List CsvRow, rows ≠ [] →
      appendAll (some rows) recs = some (rows ++ recs.map (fun r => [r.1, r.2]))) := by
  refine ⟨?_, fun rows h => appendAll_nonempty recs rows h⟩
  intro st hst
  cases recs with
  | nil => exact absurd rfl hne
  | cons r rs =>
    have hfirst : append_to_csv st r.1 r.2 = [headerRow, [r.1, r.2]] := by
      rcases hst with h | h <;> rw [h] <;> rfl
    show appendAll (some (append_to_csv st r.1 r.2)) rs = _
    rw [hfirst, appendAll_nonempty rs [headerRow, [r.1, r.2]] (by simp)]
    simp

/-- C9 witness: one record into a fresh file, and one more appended to
the resulting non-empty file. -/
theorem C9_witness :
    appendAll none [((("t1").data), (("x1").data))] =
      some [headerRow, [("t1").data, ("x1").data]] ∧
    appendAll (some [headerRow, [("t1").data, ("x1").data]])
        [((("t2").data), (("x2").data))] =
      some [headerRow, [("t1").data, ("x1").data], [("t2").data, ("x2").data]] := by
  constructor
  · have h := (C9_csv_append [((("t1").data), (("x1").data))] (by simp)).1 none (Or.inl rfl)
    simpa using h
  · have h := (C9_csv_append [((("t2").data), (("x2").data))] (by simp)).2
      [headerRow, [("t1").data, ("x1").data]] (by simp)
    simpa using h


end GetWiki
